import Mathlib

/-!
# cloudflare-exporter: scrape-and-aggregate pipeline

A shallow embedding of `cloudflare.go` and `prometheus.go` together with the
configuration normalisation exercised in `main_test.go`.

Conventions of the embedding:

* Go strings are Lean `String`s (sequences of characters); `[]string` is
  `List String`.
* `time.Time` is the instant as a count of nanoseconds since the zero time
  (January 1, year 1, 00:00:00 UTC), an `Int`; `time.Duration` is an `int64`
  count of nanoseconds, an `Int` reduced with `wrapInt64` after each
  arithmetic operation.
* The package-level configuration variables (`cfgCfAPIToken`, ...) are the
  fields of `Config`, passed explicitly.
* `time.Now()` and the GraphQL transport are the two fields of `World`,
  indexed by the number of the query within the cycle.
* The global counter vector `zoneRequestStatusCountryHost` is an explicit
  `CounterVec` state threaded through the functions that write to it.
-/

namespace CloudflareExporter

/-! ## Machine integers, durations and instants -/

/-- Two's-complement reduction of an integer to the `int64` range. -/
def wrapInt64 (x : Int) : Int := (x + 2 ^ 63) % 2 ^ 64 - 2 ^ 63

/-- The constant `time.Second`, in nanoseconds. -/
def Second : Int := 1000000000

/-- Seconds between the zero time (year 1) and the Unix epoch
(`unixToInternal` in package `time`). -/
def unixToInternal : Int := 62135596800

/-- Nanoseconds since the Unix epoch of an instant given in nanoseconds
since the zero time. -/
def unixNano (t : Int) : Int := t - unixToInternal * Second

/-- The method `Time.Add`: the instant `t + d`. -/
def timeAdd (t d : Int) : Int := t + d

/-- The method `Time.Truncate`: `t` rounded down to a multiple of `d` since
the zero time; `t` itself when `d <= 0`. -/
def timeTruncate (t d : Int) : Int :=
  if d ≤ 0 then t else timeAdd t (-(t % d))

/-! ## Data model -/

/-- The fields of `cloudflare.Zone` that the exporter reads:
`ID`, `Name` and `Plan.ZonePlanCommon.ID`. -/
structure Zone where
  ID : String
  Name : String
  PlanID : String
  deriving DecidableEq, Repr

/-- One element of `zoneResp.HTTPRequestsEdgeCountryHost`. `Count` is a
`uint64` and `EdgeResponseStatus` a `uint16`. -/
structure AdaptiveGroup where
  Count : Nat
  EdgeResponseStatus : Nat
  ClientRequestHTTPHost : String
  deriving DecidableEq, Repr

/-- One element of `zoneResp.HTTP1mGroups`; only the length of that slice is
ever inspected, so a single field stands for the group. -/
structure HTTP1mGroup where
  Datetime : String
  deriving DecidableEq, Repr

/-- The type `zoneResp`. -/
structure zoneResp where
  HTTP1mGroups : List HTTP1mGroup
  HTTPRequestsEdgeCountryHost : List AdaptiveGroup
  ZoneTag : String
  deriving DecidableEq, Repr

/-- The type `cloudflareResponse`, flattened to `Viewer.Zones`. -/
structure cloudflareResponse where
  Zones : List zoneResp
  deriving DecidableEq, Repr

/-- The package-level configuration variables read by the pipeline, taken
as parameters. `cfgScrapeDelay` is an integer number of seconds (the test
assigns it `300`); `fetchZoneTotals` converts it to a `time.Duration`. -/
structure Config where
  cfgCfAPIToken : String
  cfgCfAPIKey : String
  cfgCfAPIEmail : String
  cfgScrapeDelay : Int
  cfgFreeTier : Bool
  deriving DecidableEq, Repr

/-! ## Request headers -/

/-- An `http.Header` with single-valued entries, as an association list.
`Set` and `Get` of `net/http` canonicalise the key in the same way; the three
keys used here have distinct canonical forms, so keys are compared as
written. -/
abbrev Header := List (String × String)

/-- The method `Header.Set`: replace the entry for `key`. -/
def headerSet (h : Header) (key value : String) : Header :=
  (key, value) :: h.filter (fun e => e.1 != key)

/-- The method `Header.Get`, with `none` for an absent key. -/
def headerGet (h : Header) (key : String) : Option String :=
  (h.find? (fun e => e.1 == key)).map Prod.snd

/-- True when the header has an entry for `key`. -/
def headerHas (h : Header) (key : String) : Bool :=
  h.any (fun e => e.1 == key)

/-- The `graphql.Request` built by `fetchZoneTotals`: its header and the six
variables set with `request.Var`. -/
structure Request where
  header : Header
  limit : Int
  maxtime : Int
  mintime : Int
  zoneIDs : List String
  domainNames : List String
  requestPath : String
  deriving DecidableEq, Repr

/-! ## cloudflare.go -/

/-- The duration `-time.Duration(cfgScrapeDelay) * time.Second`, with the
`int64` wrap-around of the conversion, the negation and the product. -/
def scrapeDelayOffset (cfgScrapeDelay : Int) : Int :=
  wrapInt64 (wrapInt64 (-(wrapInt64 cfgScrapeDelay)) * Second)

/-- The query window of `fetchZoneTotals`, as `(mintime, maxtime)`:
`now` is the value of `time.Now()`. -/
def queryWindow (cfg : Config) (now : Int) : Int × Int :=
  let now := timeAdd now (scrapeDelayOffset cfg.cfgScrapeDelay)
  let s := wrapInt64 (60 * Second)
  let now := timeTruncate now s
  let now1mAgo := timeAdd now (wrapInt64 (-60 * Second))
  (now1mAgo, now)

/-- The header part of `fetchZoneTotals`, starting from the empty header of
a new request. -/
def authHeader (cfg : Config) : Header :=
  if cfg.cfgCfAPIToken.length > 0 then
    headerSet [] "Authorization" ("Bearer " ++ cfg.cfgCfAPIToken)
  else
    headerSet (headerSet [] "X-AUTH-EMAIL" cfg.cfgCfAPIEmail) "X-AUTH-KEY" cfg.cfgCfAPIKey

/-- The request that `fetchZoneTotals` builds before it runs the client. -/
def fetchZoneTotalsRequest (cfg : Config) (now : Int) (zoneIDs domainNames : List String)
    (requestPath : String) : Request :=
  let w := queryWindow cfg now
  { header := authHeader cfg
    limit := 9999
    maxtime := w.2
    mintime := w.1
    zoneIDs := zoneIDs
    domainNames := domainNames
    requestPath := requestPath }

/-- The function `fetchZoneTotals`: build the request, run it on the
transport `run`, and return the request sent together with the response or
the error. -/
def fetchZoneTotals (cfg : Config) (now : Int)
    (run : Request → Except String cloudflareResponse)
    (zoneIDs domainNames : List String) (requestPath : String) :
    Request × Except String cloudflareResponse :=
  let request := fetchZoneTotalsRequest cfg now zoneIDs domainNames requestPath
  match run request with
  | .error err => (request, .error err)
  | .ok resp => (request, .ok resp)

/-- The function `findZoneName`. -/
def findZoneName : List Zone → String → String
  | [], _ => ""
  | z :: zones, ID => if z.ID = ID then z.Name else findZoneName zones ID

/-- The function `extractZoneIDs`: the loop appends each ID to `IDs`. -/
def extractZoneIDs (zones : List Zone) : List String :=
  zones.foldl (fun IDs z => IDs ++ [z.ID]) []

/-- The plan ID of the free plan. -/
def freePlanID : String := "0feeeeeeeeeeeeeeeeeeeeeeeeeeeeee"

/-- The function `filterNonFreePlanZones`: the loop appends each zone whose
plan ID differs from the free plan's to `filteredZones`. -/
def filterNonFreePlanZones (zones : List Zone) : List Zone :=
  zones.foldl
    (fun filteredZones z =>
      if z.PlanID ≠ freePlanID then filteredZones ++ [z] else filteredZones) []

/-! ## prometheus.go -/

/-- The constant `zoneRequestStatusCountryHostMetricName`. -/
def zoneRequestStatusCountryHostMetricName : String :=
  "cloudflare_zone_requests_status_country_host"

/-- The type `MetricsSet` (`map[MetricName]struct{}`): the list of its keys,
kept free of duplicates by `Add`. -/
structure MetricsSet where
  keys : List String
  deriving DecidableEq, Repr

/-- The method `MetricsSet.Has`. -/
def MetricsSet.Has (ms : MetricsSet) (mn : String) : Bool :=
  ms.keys.contains mn

/-- The method `MetricsSet.Add`. -/
def MetricsSet.Add (ms : MetricsSet) (mn : String) : MetricsSet :=
  if ms.keys.contains mn then ms else ⟨ms.keys ++ [mn]⟩

/-- The function `buildAllMetricsSet`. -/
def buildAllMetricsSet : MetricsSet :=
  (MetricsSet.mk []).Add zoneRequestStatusCountryHostMetricName

/-- The loop of `buildDeniedMetricsSet`, with its early return. -/
def buildDeniedMetricsSetLoop (allMetricsSet : MetricsSet) :
    List String → MetricsSet → Except String MetricsSet
  | [], deniedMetricsSet => .ok deniedMetricsSet
  | metric :: rest, deniedMetricsSet =>
    if !allMetricsSet.Has metric then
      .error ("metric " ++ metric ++ " doesn\x27t exists")
    else
      buildDeniedMetricsSetLoop allMetricsSet rest (deniedMetricsSet.Add metric)

/-- The function `buildDeniedMetricsSet`. -/
def buildDeniedMetricsSet (metricsDenylist : List String) : Except String MetricsSet :=
  buildDeniedMetricsSetLoop buildAllMetricsSet metricsDenylist (MetricsSet.mk [])

/-- The call `prometheus.MustRegister(c)` on the list of the names of the
collectors registered so far: the collector is added, and the call panics
(`none`) when a collector of that name is registered already. -/
def prometheusMustRegister (registry : List String) (name : String) : Option (List String) :=
  if registry.contains name then none else some (registry ++ [name])

/-- The function `mustRegisterMetrics`, on the list of the names of the
collectors registered so far; `none` is the panic of `MustRegister`. -/
def mustRegisterMetrics (deniedMetrics : MetricsSet) (registry : List String) :
    Option (List String) :=
  if !deniedMetrics.Has zoneRequestStatusCountryHostMetricName then
    prometheusMustRegister registry zoneRequestStatusCountryHostMetricName
  else
    some registry

/-! ### The counter vector -/

/-- The label values of one child of `zoneRequestStatusCountryHost`, in the
order of the label names `zone`, `status`, `host`, `path`. -/
structure CounterKey where
  zone : String
  status : String
  host : String
  path : String
  deriving DecidableEq, Repr

/-- The state of the counter vector: the value of each child that exists.
Values are `float64`s; every value that the exporter adds is a whole number,
so a value is held as the natural number it denotes. -/
abbrev CounterVec := CounterKey → Option Nat

/-- The counter vector before any child has been created. -/
def freshCounterVec : CounterVec := fun _ => none

/-- The value read for a key: `0` for a child that does not exist. -/
def counterValue (cv : CounterVec) (k : CounterKey) : Nat := (cv k).getD 0

/-- Number of binary digits of `n`, computed with `fuel` halvings. -/
def bitLength : Nat → Nat → Nat
  | 0, _ => 0
  | fuel + 1, n => if n = 0 then 0 else bitLength fuel (n / 2) + 1

/-- The `float64` nearest to the natural number `n`, ties to even, as a
natural number: the value is kept when it fits the 53-bit significand and is
rounded to 53 significant bits otherwise. (The overflow to infinity above
`2 ^ 1024` is out of reach of sums of `uint64` values and is not modelled.) -/
def roundFloat64 (n : Nat) : Nat :=
  if n < 2 ^ 53 then n
  else
    let e := bitLength n n - 53
    let q := n / 2 ^ e
    let r := n % 2 ^ e
    if 2 * r < 2 ^ e then q * 2 ^ e
    else if 2 ^ e < 2 * r then (q + 1) * 2 ^ e
    else if q % 2 = 0 then q * 2 ^ e
    else (q + 1) * 2 ^ e

/-- The conversion `float64(x)` of a `uint64`. -/
def float64OfUint64 (x : Nat) : Nat := roundFloat64 x

/-- The call `vec.With(labels).Add(v)`: the child for `labels` is created
with value `0` when it does not exist, and `v` is added to its value. The
sum is rounded as a `float64` sum; it is the exact sum, whatever way the
client library accumulates, as long as it is below `2 ^ 53`, and the
theorems on values are stated in that range. -/
def counterAdd (cv : CounterVec) (labels : CounterKey) (v : Nat) : CounterVec :=
  fun k => if k = labels then some (roundFloat64 (counterValue cv labels + v)) else cv k

/-- The call `strconv.Itoa(int(x))` for an unsigned `x`. -/
def strconvItoa (x : Nat) : String := Nat.repr x

/-- The label values that `addHTTPAdaptiveGroups` builds for a record. -/
def labelsOf (name requestPath : String) (g : AdaptiveGroup) : CounterKey :=
  { zone := name
    status := strconvItoa g.EdgeResponseStatus
    host := g.ClientRequestHTTPHost
    path := requestPath }

/-- The function `addHTTPGroups`: it returns at once on an empty slice and
does nothing otherwise. -/
def addHTTPGroups (cv : CounterVec) (z : zoneResp) (_name : String) : CounterVec :=
  if z.HTTP1mGroups.length = 0 then cv else cv

/-- The function `addHTTPAdaptiveGroups`. -/
def addHTTPAdaptiveGroups (cv : CounterVec) (z : zoneResp) (name requestPath : String) :
    CounterVec :=
  z.HTTPRequestsEdgeCountryHost.foldl
    (fun cv g => counterAdd cv (labelsOf name requestPath g) (float64OfUint64 g.Count)) cv

/-- The clock and the transport of one cycle: `now i` is what `time.Now()`
returns in the query number `i`, and `run i` is what the GraphQL client does
with the request of that query. -/
structure World where
  now : Nat → Int
  run : Nat → Request → Except String cloudflareResponse

/-- The inner loop of `fetchZoneAnalytics` over `r.Viewer.Zones`. -/
def foldResponseZones (zones : List Zone) (requestPath : String) :
    List zoneResp → CounterVec → CounterVec
  | [], cv => cv
  | z :: rest, cv =>
    let name := findZoneName zones z.ZoneTag
    let cv := addHTTPGroups cv z name
    let cv := addHTTPAdaptiveGroups cv z name requestPath
    foldResponseZones zones requestPath rest cv

/-- One query of a cycle: the request and what `fetchZoneTotals` returned
for it. -/
abbrev Exchange := Request × Except String cloudflareResponse

/-- The loop of `fetchZoneAnalytics` over `requestPaths`: `i` numbers the
query, `cv` is the counter state and `sent` the queries made so far, each
with the result that `fetchZoneTotals` returned to the loop. -/
def fetchZoneAnalyticsLoop (cfg : Config) (w : World) (zones : List Zone)
    (zoneIDs domainNames : List String) :
    List String → Nat → CounterVec → List Exchange → CounterVec × List Exchange
  | [], _, cv, sent => (cv, sent)
  | requestPath :: rest, i, cv, sent =>
    match fetchZoneTotals cfg (w.now i) (w.run i) zoneIDs domainNames requestPath with
    | (request, .error err) =>
      fetchZoneAnalyticsLoop cfg w zones zoneIDs domainNames rest (i + 1) cv
        (sent ++ [(request, .error err)])
    | (request, .ok r) =>
      fetchZoneAnalyticsLoop cfg w zones zoneIDs domainNames rest (i + 1)
        (foldResponseZones zones requestPath r.Zones cv) (sent ++ [(request, .ok r)])

/-- The function `fetchZoneAnalytics`: the counter state after the cycle and
the queries made, in order, each with its result. -/
def fetchZoneAnalytics (cfg : Config) (w : World) (cv : CounterVec) (zones : List Zone)
    (domainNames requestPaths : List String) : CounterVec × List Exchange :=
  if cfg.cfgFreeTier then (cv, [])
  else
    let zoneIDs := extractZoneIDs (filterNonFreePlanZones zones)
    if zoneIDs.length = 0 then (cv, [])
    else fetchZoneAnalyticsLoop cfg w zones zoneIDs domainNames requestPaths 0 cv []

/-! ## Normalisation of comma-separated configuration values (main_test.go) -/

/-- The predicate `unicode.IsSpace`. -/
def isSpace (c : Char) : Bool :=
  c = '\t' || c = '\n' || c.val = 0x0B || c.val = 0x0C || c = '\r' || c = ' ' ||
  c.val = 0x85 || c.val = 0xA0 || c.val = 0x1680 ||
  (0x2000 ≤ c.val && c.val ≤ 0x200A) ||
  c.val = 0x2028 || c.val = 0x2029 || c.val = 0x202F || c.val = 0x205F || c.val = 0x3000

/-- The function `strings.TrimSpace`, on the characters of the string. -/
def trimSpaceChars (s : List Char) : List Char :=
  (s.dropWhile isSpace).rdropWhile isSpace

/-- The function `strings.TrimSpace`. -/
def stringsTrimSpace (s : String) : String := ⟨trimSpaceChars s.data⟩

/-- The function `strings.Split` for a one-character separator, on the
characters of the string: the pieces between the separators, one more than
there are separators. -/
def splitChars (sep : Char) : List Char → List (List Char)
  | [] => [[]]
  | c :: cs =>
    if c = sep then [] :: splitChars sep cs
    else
      match splitChars sep cs with
      | [] => [[c]]
      | piece :: pieces => (c :: piece) :: pieces

/-- The function `strings.Split` for a one-character separator. -/
def stringsSplit (s : String) (sep : Char) : List String :=
  (splitChars sep s.data).map String.mk

/-- The normalisation of a comma-separated configuration value, as written
out for `cfgRequestPaths` and `cfgDomainNamesList`: split on `","` when the
value is not empty, then trim each piece. -/
def normalizeList (cfg : String) : List String :=
  if cfg.length > 0 then
    (stringsSplit cfg ',').map stringsTrimSpace
  else
    []

/-! ## Specification-side definitions -/

/-- The outcome of the query of each configured path, in path order, from
path number `i` on: the path paired with what the transport returns for the
request built for it. -/
def pathOutcomesFrom (cfg : Config) (w : World) (zoneIDs domainNames : List String)
    (i : Nat) (requestPaths : List String) :
    List (String × Except String cloudflareResponse) :=
  (requestPaths.enumFrom i).map
    (fun e => (e.2, w.run e.1 (fetchZoneTotalsRequest cfg (w.now e.1) zoneIDs domainNames e.2)))

/-- The query of path number `i`: the request built for the path at the
instant `w.now i`, and the answer of the transport `w.run i` to that very
request. -/
def exchangeOf (cfg : Config) (w : World) (zoneIDs domainNames : List String)
    (i : Nat) (requestPath : String) : Exchange :=
  (fetchZoneTotalsRequest cfg (w.now i) zoneIDs domainNames requestPath,
   w.run i (fetchZoneTotalsRequest cfg (w.now i) zoneIDs domainNames requestPath))

/-- The paths whose query succeeded, each with its response, in path order. -/
def successfulResponses (outcomes : List (String × Except String cloudflareResponse)) :
    List (String × cloudflareResponse) :=
  outcomes.filterMap
    (fun o => match o.2 with
      | .ok r => some (o.1, r)
      | .error _ => none)

/-- Folding a list of (path, response) pairs into the counter state, in
list order. -/
def foldResponses (zones : List Zone) (responses : List (String × cloudflareResponse))
    (cv : CounterVec) : CounterVec :=
  responses.foldl (fun cv pr => foldResponseZones zones pr.1 pr.2.Zones cv) cv

/-- The sum of the counts of the records of a group whose key, the zone name
`name`, the decimal string of the status, the host and the path
`requestPath`, equals `k`. -/
def matchingCount (name requestPath : String) (records : List AdaptiveGroup)
    (k : CounterKey) : Nat :=
  ((records.filter
      (fun g =>
        decide ((⟨name, Nat.repr g.EdgeResponseStatus, g.ClientRequestHTTPHost, requestPath⟩ :
          CounterKey) = k))).map
    AdaptiveGroup.Count).sum

/-- The function `strings.Join` for a one-character separator, on the
characters of the strings. -/
def joinChars (sep : Char) : List (List Char) → List Char
  | [] => []
  | [a] => a
  | a :: b :: rest => a ++ sep :: joinChars sep (b :: rest)

/-- The function `strings.Join` for a one-character separator. -/
def stringsJoin (elems : List String) (sep : Char) : String :=
  ⟨joinChars sep (elems.map String.data)⟩

/-- True when the first character of `s`, if there is one, is not white
space. -/
def headNotSpace (s : List Char) : Bool :=
  match s.head? with
  | some c => !isSpace c
  | none => true

/-- True when the last character of `s`, if there is one, is not white
space. -/
def lastNotSpace (s : List Char) : Bool :=
  match s.getLast? with
  | some c => !isSpace c
  | none => true

/-- An item of a configuration list: a non-empty string with no comma and
with no leading or trailing white space. -/
def isItem (s : String) : Bool :=
  !s.data.isEmpty && !s.data.contains ',' && headNotSpace s.data && lastNotSpace s.data

/-- A string of white space only (possibly empty). -/
def isPadding (s : String) : Bool := s.data.all isSpace

/-- An item as it is written in the configuration value: the item with
white space before and after it. -/
structure PaddedItem where
  left : String
  item : String
  right : String
  deriving DecidableEq, Repr

/-- The text of a padded item. -/
def PaddedItem.text (e : PaddedItem) : String := e.left ++ e.item ++ e.right

/-- A padded item is well formed when its padding is white space and its
item is an item. -/
def PaddedItem.wellFormed (e : PaddedItem) : Bool :=
  isPadding e.left && isItem e.item && isPadding e.right

/-! ## Theorems -/

/-! ### Zone helpers -/

theorem filterNonFreePlanZones_foldl (zones acc : List Zone) :
    zones.foldl
      (fun filteredZones z =>
        if z.PlanID ≠ freePlanID then filteredZones ++ [z] else filteredZones) acc
      = acc ++ zones.filter (fun z => decide (z.PlanID ≠ freePlanID)) := by
  induction zones generalizing acc with
  | nil => simp
  | cons z zones ih =>
    simp only [List.foldl_cons, ih]
    by_cases hz : z.PlanID = freePlanID
    · simp [hz]
    · simp [hz]

theorem filterNonFreePlanZones_eq_filter (zones : List Zone) :
    filterNonFreePlanZones zones = zones.filter (fun z => decide (z.PlanID ≠ freePlanID)) := by
  unfold filterNonFreePlanZones
  rw [filterNonFreePlanZones_foldl, List.nil_append]

theorem extractZoneIDs_foldl (zones : List Zone) (acc : List String) :
    zones.foldl (fun IDs z => IDs ++ [z.ID]) acc = acc ++ zones.map Zone.ID := by
  induction zones generalizing acc with
  | nil => simp
  | cons z zones ih => simp [List.foldl_cons, ih]

theorem extractZoneIDs_eq_map (zones : List Zone) :
    extractZoneIDs zones = zones.map Zone.ID := by
  simp [extractZoneIDs, extractZoneIDs_foldl]

/-- C7: `filterNonFreePlanZones` returns exactly the zones whose plan ID is
not the free plan ID `0feeeeeeeeeeeeeeeeeeeeeeeeeeeeee`, in input order and
with multiplicity (it is the filter of the input list by that test); on a
free zone `z1` followed by a paid zone `z2` it returns exactly `[z2]`. -/
theorem filterNonFreePlanZones_spec (zones : List Zone) :
    filterNonFreePlanZones zones
        = zones.filter (fun z => decide (z.PlanID ≠ "0feeeeeeeeeeeeeeeeeeeeeeeeeeeeee"))
      ∧ filterNonFreePlanZones
          [⟨"z1", "free.example", "0feeeeeeeeeeeeeeeeeeeeeeeeeeeeee"⟩,
           ⟨"z2", "paid.example", "1ac039f6c29b287de6bb0ee6ce2b8f31"⟩]
        = [⟨"z2", "paid.example", "1ac039f6c29b287de6bb0ee6ce2b8f31"⟩] := by
  refine ⟨?_, by decide⟩
  rw [filterNonFreePlanZones_eq_filter]
  rfl

theorem findZoneName_eq_find (zones : List Zone) (ID : String) :
    findZoneName zones ID
      = match zones.find? (fun z => z.ID == ID) with
        | some z => z.Name
        | none => "" := by
  induction zones with
  | nil => rfl
  | cons z zones ih =>
    by_cases hz : z.ID = ID
    · simp [findZoneName, hz]
    · simp [findZoneName, hz, ih]

/-- C9: `findZoneName` is total: it returns the name of the first zone of
the list whose ID equals the tag, and the empty string when there is none;
in the cycle a response zone is folded under that name, so the records of a
zone whose tag is unknown are still counted, under the zone label `""`
(a record with count 3 for an unknown tag puts 3 under that label). -/
theorem findZoneName_spec (zones : List Zone) (ID : String) :
    (findZoneName zones ID
      = match zones.find? (fun z => z.ID == ID) with
        | some z => z.Name
        | none => "")
    ∧ ((zones.all (fun z => z.ID != ID)) = true ↔ zones.find? (fun z => z.ID == ID) = none)
    ∧ (∀ (requestPath : String) (z : zoneResp) (rest : List zoneResp) (cv : CounterVec),
        foldResponseZones zones requestPath (z :: rest) cv
          = foldResponseZones zones requestPath rest
              (addHTTPAdaptiveGroups cv z
                (match zones.find? (fun z' => z'.ID == z.ZoneTag) with
                 | some z' => z'.Name
                 | none => "") requestPath))
    ∧ counterValue
        (foldResponseZones [⟨"zone1", "example.com", "paid"⟩] "/api/%"
          [⟨[], [⟨3, 200, "example.com"⟩], "unknown"⟩] freshCounterVec)
        ⟨"", "200", "example.com", "/api/%"⟩ = 3 := by
  refine ⟨findZoneName_eq_find zones ID, ?_, ?_, by decide⟩
  · simp [List.find?_eq_none, List.all_eq_true]
  · intro requestPath z rest cv
    simp [foldResponseZones, addHTTPGroups, findZoneName_eq_find]

/-! ### The metric catalog and the denylist -/

theorem metricsSet_has_add (ms : MetricsSet) (mn n : String) :
    (ms.Add mn).Has n = true ↔ ms.Has n = true ∨ n = mn := by
  unfold MetricsSet.Add MetricsSet.Has
  by_cases h : ms.keys.contains mn = true
  · simp only [h, if_true]
    constructor
    · intro hn; exact Or.inl hn
    · rintro (hn | rfl)
      · exact hn
      · exact h
  · simp only [h]
    simp

theorem metricsSet_has_foldl_add (l : List String) (ms : MetricsSet) (n : String) :
    (l.foldl MetricsSet.Add ms).Has n = true ↔ ms.Has n = true ∨ n ∈ l := by
  induction l generalizing ms with
  | nil => simp
  | cons a l ih =>
    rw [List.foldl_cons, ih, metricsSet_has_add, List.mem_cons]
    tauto

theorem buildDeniedMetricsSetLoop_eq (allMetricsSet : MetricsSet) (l : List String)
    (denied : MetricsSet) :
    buildDeniedMetricsSetLoop allMetricsSet l denied
      = match l.find? (fun n => !allMetricsSet.Has n) with
        | some bad => .error ("metric " ++ bad ++ " doesn\x27t exists")
        | none => .ok (l.foldl MetricsSet.Add denied) := by
  induction l generalizing denied with
  | nil => rfl
  | cons a l ih =>
    by_cases ha : allMetricsSet.Has a = true
    · simp [buildDeniedMetricsSetLoop, ha, ih]
    · simp [buildDeniedMetricsSetLoop, ha]

theorem buildAllMetricsSet_has (n : String) :
    buildAllMetricsSet.Has n = true ↔ n = zoneRequestStatusCountryHostMetricName := by
  unfold buildAllMetricsSet
  rw [metricsSet_has_add]
  simp [MetricsSet.Has]

/-- C2: `buildDeniedMetricsSet` returns an error exactly when some name of
the list is not in the catalog of `buildAllMetricsSet` (whose only member is
`cloudflare_zone_requests_status_country_host`); the error then names the
first such name in list order; otherwise the result is a set whose members
are exactly the names of the list. The empty list gives the empty set and
the list `["unknown_metric"]` gives an error. -/
theorem buildDeniedMetricsSet_spec (metricsDenylist : List String) :
    (∀ n, buildAllMetricsSet.Has n = true ↔ n = "cloudflare_zone_requests_status_country_host")
    ∧ ((∃ err, buildDeniedMetricsSet metricsDenylist = .error err)
        ↔ ∃ n ∈ metricsDenylist, buildAllMetricsSet.Has n = false)
    ∧ (match metricsDenylist.find? (fun n => !buildAllMetricsSet.Has n) with
       | some bad =>
         buildDeniedMetricsSet metricsDenylist
           = .error ("metric " ++ bad ++ " doesn\x27t exists")
       | none =>
         ∃ ms, buildDeniedMetricsSet metricsDenylist = .ok ms
           ∧ ∀ n, ms.Has n = true ↔ n ∈ metricsDenylist)
    ∧ buildDeniedMetricsSet [] = .ok ⟨[]⟩
    ∧ buildDeniedMetricsSet ["unknown_metric"]
        = .error "metric unknown_metric doesn\x27t exists" := by
  refine ⟨buildAllMetricsSet_has, ?_, ?_, rfl, rfl⟩
  · unfold buildDeniedMetricsSet
    rw [buildDeniedMetricsSetLoop_eq]
    cases hf : metricsDenylist.find? (fun n => !buildAllMetricsSet.Has n) with
    | some bad =>
      have hmem := List.mem_of_find?_eq_some hf
      have hbad := List.find?_some hf
      simp only [Bool.not_eq_true_eq_eq_false, Bool.not_eq_true] at hbad
      constructor
      · intro _
        exact ⟨bad, hmem, by simpa using hbad⟩
      · intro _
        exact ⟨_, rfl⟩
    | none =>
      rw [List.find?_eq_none] at hf
      constructor
      · rintro ⟨err, herr⟩
        cases herr
      · rintro ⟨n, hn, hfalse⟩
        have := hf n hn
        simp [hfalse] at this
  · unfold buildDeniedMetricsSet
    rw [buildDeniedMetricsSetLoop_eq]
    cases hf : metricsDenylist.find? (fun n => !buildAllMetricsSet.Has n) with
    | some bad => rfl
    | none =>
      refine ⟨_, rfl, fun n => ?_⟩
      rw [metricsSet_has_foldl_add]
      simp [MetricsSet.Has]

/-! ### Authentication headers -/

theorem string_length_pos_iff (s : String) : s.length > 0 ↔ s ≠ "" := by
  constructor
  · intro h hs
    subst hs
    simp at h
  · intro h
    rcases s with ⟨l⟩
    cases l with
    | nil => exact absurd rfl h
    | cons c cs => simp [String.length]

/-- C8: the headers that `fetchZoneTotals` sets use exactly one scheme.
With a non-empty token the header is the single entry
`Authorization: Bearer <token>`, so neither `X-AUTH-EMAIL` nor `X-AUTH-KEY` is
set, whatever key and email are configured; with an empty token
`X-AUTH-EMAIL` is the email, `X-AUTH-KEY` is the key and `Authorization` is
not set. -/
theorem fetchZoneTotals_auth_header (cfg : Config) (now : Int)
    (zoneIDs domainNames : List String) (requestPath : String) :
    let h := (fetchZoneTotalsRequest cfg now zoneIDs domainNames requestPath).header
    (h = if cfg.cfgCfAPIToken = "" then
            [("X-AUTH-KEY", cfg.cfgCfAPIKey), ("X-AUTH-EMAIL", cfg.cfgCfAPIEmail)]
          else [("Authorization", "Bearer " ++ cfg.cfgCfAPIToken)])
    ∧ headerGet h "Authorization"
        = (if cfg.cfgCfAPIToken = "" then none else some ("Bearer " ++ cfg.cfgCfAPIToken))
    ∧ headerGet h "X-AUTH-EMAIL"
        = (if cfg.cfgCfAPIToken = "" then some cfg.cfgCfAPIEmail else none)
    ∧ headerGet h "X-AUTH-KEY"
        = (if cfg.cfgCfAPIToken = "" then some cfg.cfgCfAPIKey else none)
    ∧ headerHas h "Authorization" = !(headerHas h "X-AUTH-EMAIL")
    ∧ headerHas h "X-AUTH-EMAIL" = headerHas h "X-AUTH-KEY" := by
  have hh : (fetchZoneTotalsRequest cfg now zoneIDs domainNames requestPath).header
      = if cfg.cfgCfAPIToken = "" then
            [("X-AUTH-KEY", cfg.cfgCfAPIKey), ("X-AUTH-EMAIL", cfg.cfgCfAPIEmail)]
          else [("Authorization", "Bearer " ++ cfg.cfgCfAPIToken)] := by
    by_cases ht : cfg.cfgCfAPIToken = ""
    · have hlen : ¬ cfg.cfgCfAPIToken.length > 0 := by
        rw [string_length_pos_iff]; simpa using ht
      simp only [fetchZoneTotalsRequest, authHeader, hlen, ht, if_true, if_false, headerSet]
      rfl
    · have hlen : cfg.cfgCfAPIToken.length > 0 := (string_length_pos_iff _).2 ht
      simp only [fetchZoneTotalsRequest, authHeader, hlen, ht, if_true, if_false, headerSet]
      rfl
  intro h
  have hh2 : h = _ := hh
  rw [hh2]
  by_cases ht : cfg.cfgCfAPIToken = ""
  · simp only [ht, if_true]
    refine ⟨trivial, ?_, ?_, ?_, ?_, ?_⟩ <;> simp [headerGet, headerHas, List.find?]
  · simp only [ht, if_false]
    refine ⟨trivial, ?_, ?_, ?_, ?_, ?_⟩ <;> simp [headerGet, headerHas, List.find?]

/-! ### The scrape cycle -/

theorem fetchZoneAnalyticsLoop_eq (cfg : Config) (w : World) (zones : List Zone)
    (zoneIDs domainNames : List String) (requestPaths : List String) (i : Nat)
    (cv : CounterVec) (sent : List Exchange) :
    fetchZoneAnalyticsLoop cfg w zones zoneIDs domainNames requestPaths i cv sent
      = (foldResponses zones
          (successfulResponses (pathOutcomesFrom cfg w zoneIDs domainNames i requestPaths)) cv,
         sent ++ (requestPaths.enumFrom i).map
           (fun e => exchangeOf cfg w zoneIDs domainNames e.1 e.2)) := by
  induction requestPaths generalizing i cv sent with
  | nil => simp [fetchZoneAnalyticsLoop, pathOutcomesFrom, successfulResponses, foldResponses]
  | cons p rest ih =>
    unfold fetchZoneAnalyticsLoop
    cases hrun : w.run i (fetchZoneTotalsRequest cfg (w.now i) zoneIDs domainNames p) with
    | error err =>
      simp only [fetchZoneTotals, hrun, ih]
      simp [pathOutcomesFrom, successfulResponses, foldResponses, List.enumFrom_cons, hrun,
        exchangeOf]
    | ok r =>
      simp only [fetchZoneTotals, hrun, ih]
      simp [pathOutcomesFrom, successfulResponses, foldResponses, List.enumFrom_cons, hrun,
        exchangeOf]

theorem zoneIDs_eq_nil_iff (zones : List Zone) :
    extractZoneIDs (filterNonFreePlanZones zones) = [] ↔ ∀ z ∈ zones, z.PlanID = freePlanID := by
  rw [extractZoneIDs_eq_map, filterNonFreePlanZones_eq_filter]
  simp [List.filter_eq_nil_iff]

theorem fetchZoneAnalytics_eq (cfg : Config) (w : World) (cv : CounterVec) (zones : List Zone)
    (domainNames requestPaths : List String) :
    fetchZoneAnalytics cfg w cv zones domainNames requestPaths
      = if cfg.cfgFreeTier = true ∨ (∀ z ∈ zones, z.PlanID = freePlanID) then (cv, [])
        else
          (foldResponses zones
            (successfulResponses
              (pathOutcomesFrom cfg w (extractZoneIDs (filterNonFreePlanZones zones))
                domainNames 0 requestPaths)) cv,
           (requestPaths.enumFrom 0).map
             (fun e => exchangeOf cfg w
               (extractZoneIDs (filterNonFreePlanZones zones)) domainNames e.1 e.2)) := by
  unfold fetchZoneAnalytics
  by_cases hft : cfg.cfgFreeTier = true
  · simp [hft]
  · by_cases hz : ∀ z ∈ zones, z.PlanID = freePlanID
    · have h0 : (extractZoneIDs (filterNonFreePlanZones zones)).length = 0 := by
        rw [List.length_eq_zero]; exact (zoneIDs_eq_nil_iff zones).2 hz
      rw [if_neg hft, if_pos (Or.inr hz)]
      simp [h0]
    · have h0 : ¬ (extractZoneIDs (filterNonFreePlanZones zones)).length = 0 := by
        rw [List.length_eq_zero]; exact fun h => hz ((zoneIDs_eq_nil_iff zones).1 h)
      rw [if_neg hft, if_neg (not_or.2 ⟨hft, hz⟩)]
      simp only [h0, if_false]
      rw [fetchZoneAnalyticsLoop_eq]
      simp

/-- C5: the counter state after one `fetchZoneAnalytics` cycle is the prior
state with the responses of exactly the paths whose query succeeded folded
in, in path order, for every list of paths and every outcome of each query:
a failed path contributes nothing and the fold goes on with the next path.
(With the free-tier flag set, or with no non-free zone, no query is issued
and the state is the prior state.) -/
theorem fetchZoneAnalytics_counters (cfg : Config) (w : World) (cv : CounterVec)
    (zones : List Zone) (domainNames requestPaths : List String) :
    (fetchZoneAnalytics cfg w cv zones domainNames requestPaths).1
      = if cfg.cfgFreeTier = true ∨ (∀ z ∈ zones, z.PlanID = freePlanID) then cv
        else
          foldResponses zones
            (successfulResponses
              (pathOutcomesFrom cfg w (extractZoneIDs (filterNonFreePlanZones zones))
                domainNames 0 requestPaths)) cv := by
  rw [fetchZoneAnalytics_eq]
  split <;> rfl

/-- C6: the queries issued in one `fetchZoneAnalytics` cycle are none when
the free-tier flag is set or when every zone has the free plan; otherwise
there is exactly one per configured path, in configuration order and for
every behaviour of the transport, carrying that path, the given domain
names, the IDs of the non-free zones in input order and the limit 9999.
No query carries an empty list of zone IDs. Each query is run on the
transport: query number `i` is the request built for path number `i`,
recorded with the answer `w.run i` gives to that request, whatever the
earlier answers were. -/
theorem fetchZoneAnalytics_queries (cfg : Config) (w : World) (cv : CounterVec)
    (zones : List Zone) (domainNames requestPaths : List String) :
    ((fetchZoneAnalytics cfg w cv zones domainNames requestPaths).2.map
        (fun x => (x.1.requestPath, x.1.domainNames, x.1.zoneIDs, x.1.limit))
      = if cfg.cfgFreeTier = true ∨ (∀ z ∈ zones, z.PlanID = freePlanID) then []
        else
          requestPaths.map
            (fun p => (p, domainNames,
              (zones.filter (fun z => decide (z.PlanID ≠ freePlanID))).map Zone.ID, 9999)))
    ∧ (∀ x ∈ (fetchZoneAnalytics cfg w cv zones domainNames requestPaths).2, x.1.zoneIDs ≠ [])
    ∧ (fetchZoneAnalytics cfg w cv zones domainNames requestPaths).2
        = (if cfg.cfgFreeTier = true ∨ (∀ z ∈ zones, z.PlanID = freePlanID) then []
           else
             requestPaths.enum.map
               (fun e =>
                 (fetchZoneTotalsRequest cfg (w.now e.1)
                    ((zones.filter (fun z => decide (z.PlanID ≠ freePlanID))).map Zone.ID)
                    domainNames e.2,
                  w.run e.1
                    (fetchZoneTotalsRequest cfg (w.now e.1)
                      ((zones.filter (fun z => decide (z.PlanID ≠ freePlanID))).map Zone.ID)
                      domainNames e.2)))) := by
  rw [fetchZoneAnalytics_eq]
  by_cases hc : cfg.cfgFreeTier = true ∨ (∀ z ∈ zones, z.PlanID = freePlanID)
  · simp only [hc, if_true]
    simp
  · simp only [hc, if_false]
    have hne : extractZoneIDs (filterNonFreePlanZones zones) ≠ [] := by
      intro h
      exact hc (Or.inr ((zoneIDs_eq_nil_iff zones).1 h))
    have hids : extractZoneIDs (filterNonFreePlanZones zones)
        = (zones.filter (fun z => decide (z.PlanID ≠ freePlanID))).map Zone.ID := by
      rw [extractZoneIDs_eq_map, filterNonFreePlanZones_eq_filter]
    refine ⟨?_, ?_, ?_⟩
    · rw [← hids, List.map_map]
      have : ∀ (i : Nat) (l : List String),
          List.map
            ((fun x : Exchange => (x.1.requestPath, x.1.domainNames, x.1.zoneIDs, x.1.limit)) ∘
              fun e : Nat × String => exchangeOf cfg w
                (extractZoneIDs (filterNonFreePlanZones zones)) domainNames e.1 e.2)
            (l.enumFrom i)
          = l.map (fun p => (p, domainNames,
              extractZoneIDs (filterNonFreePlanZones zones), (9999 : Int))) := by
        intro i l
        induction l generalizing i with
        | nil => rfl
        | cons a l ih =>
          rw [List.enumFrom_cons, List.map_cons, List.map_cons, ih]
          rfl
      exact this 0 requestPaths
    · intro x hx
      rw [List.mem_map] at hx
      obtain ⟨e, _, rfl⟩ := hx
      exact hne
    · rw [← hids]
      rfl

/-! ### The query window -/

theorem wrapInt64_eq_self (x : Int) (hlo : -(2 ^ 63) ≤ x) (hhi : x < 2 ^ 63) :
    wrapInt64 x = x := by
  unfold wrapInt64
  rw [Int.emod_eq_of_lt (by omega) (by omega)]
  omega

theorem scrapeDelayOffset_eq (d : Int) (h0 : 0 ≤ d) (h1 : d ≤ 9223372036) :
    scrapeDelayOffset d = -(d * Second) := by
  unfold scrapeDelayOffset
  rw [wrapInt64_eq_self d (by omega) (by omega),
    wrapInt64_eq_self (-d) (by omega) (by omega)]
  unfold Second
  rw [wrapInt64_eq_self _ (by omega) (by omega)]
  omega

/-- C1, the claim as stated fails: with the scrape delay 9223372037 s the
product `-time.Duration(cfgScrapeDelay) * time.Second` wraps around in
`int64` to a positive duration, and at the instant 2024-10-27T03:33:20Z the
window's end lies after `now - scrapeDelay` (and after `now`). -/
theorem queryWindow_delay_overflow :
    (0 : Int) ≤ 9223372037
    ∧ ¬ ((fetchZoneTotalsRequest ⟨"test-token", "", "", 9223372037, false⟩
            ((unixToInternal + 1730000000) * Second) ["zone1"] ["example.com"] "/api/%").maxtime
          ≤ (unixToInternal + 1730000000) * Second - 9223372037 * Second)
    ∧ (unixToInternal + 1730000000) * Second
        < (fetchZoneTotalsRequest ⟨"test-token", "", "", 9223372037, false⟩
            ((unixToInternal + 1730000000) * Second) ["zone1"] ["example.com"] "/api/%").maxtime := by
  decide

/-- C1, amended: for every instant `now` and every scrape delay between 0
and 9223372036 seconds (the delays for which `delay * time.Second` fits a
`time.Duration`), the window that `fetchZoneTotals` puts in the request has
`maxtime` a whole multiple of 60 seconds since the Unix epoch,
`maxtime <= now - scrapeDelay`, with less than 60 seconds between the two,
and `mintime = maxtime - 60 s`. -/
theorem fetchZoneTotals_window (cfg : Config) (now : Int) (zoneIDs domainNames : List String)
    (requestPath : String) (h0 : 0 ≤ cfg.cfgScrapeDelay)
    (h1 : cfg.cfgScrapeDelay ≤ 9223372036) :
    unixNano (fetchZoneTotalsRequest cfg now zoneIDs domainNames requestPath).maxtime
        % (60 * Second) = 0
    ∧ (fetchZoneTotalsRequest cfg now zoneIDs domainNames requestPath).maxtime
        ≤ now - cfg.cfgScrapeDelay * Second
    ∧ now - cfg.cfgScrapeDelay * Second
        < (fetchZoneTotalsRequest cfg now zoneIDs domainNames requestPath).maxtime + 60 * Second
    ∧ (fetchZoneTotalsRequest cfg now zoneIDs domainNames requestPath).mintime
        = (fetchZoneTotalsRequest cfg now zoneIDs domainNames requestPath).maxtime
            - 60 * Second := by
  have hs : wrapInt64 (60 * Second) = 60000000000 := by
    unfold Second; exact wrapInt64_eq_self _ (by omega) (by omega)
  have hm : wrapInt64 (-60 * Second) = -60000000000 := by
    unfold Second; exact wrapInt64_eq_self _ (by omega) (by omega)
  simp only [fetchZoneTotalsRequest, queryWindow, scrapeDelayOffset_eq _ h0 h1, hs, hm,
    timeTruncate, timeAdd, unixNano, unixToInternal]
  unfold Second
  rw [if_neg (by omega)]
  refine ⟨?_, ?_, ?_, ?_⟩ <;> omega

/-- Witness for C1: the delay 300 s at the instant 2024-10-27T03:33:20Z. -/
theorem fetchZoneTotals_window_witness :
    unixNano (fetchZoneTotalsRequest ⟨"test-token", "", "", 300, false⟩
        ((unixToInternal + 1730000000) * Second) ["zone1"] ["example.com"] "/api/%").maxtime
        % (60 * Second) = 0
    ∧ (fetchZoneTotalsRequest ⟨"test-token", "", "", 300, false⟩
        ((unixToInternal + 1730000000) * Second) ["zone1"] ["example.com"] "/api/%").maxtime
        ≤ (unixToInternal + 1730000000) * Second - 300 * Second
    ∧ (unixToInternal + 1730000000) * Second - 300 * Second
        < (fetchZoneTotalsRequest ⟨"test-token", "", "", 300, false⟩
            ((unixToInternal + 1730000000) * Second) ["zone1"] ["example.com"] "/api/%").maxtime
          + 60 * Second
    ∧ (fetchZoneTotalsRequest ⟨"test-token", "", "", 300, false⟩
        ((unixToInternal + 1730000000) * Second) ["zone1"] ["example.com"] "/api/%").mintime
        = (fetchZoneTotalsRequest ⟨"test-token", "", "", 300, false⟩
            ((unixToInternal + 1730000000) * Second) ["zone1"] ["example.com"] "/api/%").maxtime
            - 60 * Second :=
  fetchZoneTotals_window ⟨"test-token", "", "", 300, false⟩
    ((unixToInternal + 1730000000) * Second) ["zone1"] ["example.com"] "/api/%"
    (by decide) (by decide)

/-! ### Folding records into the counter vector -/

theorem roundFloat64_of_lt (n : Nat) (h : n < 2 ^ 53) : roundFloat64 n = n := by
  unfold roundFloat64
  rw [if_pos h]

theorem labelsOf_eq (name requestPath : String) (g : AdaptiveGroup) :
    labelsOf name requestPath g
      = ⟨name, Nat.repr g.EdgeResponseStatus, g.ClientRequestHTTPHost, requestPath⟩ := rfl

theorem matchingCount_cons (name requestPath : String) (g : AdaptiveGroup)
    (records : List AdaptiveGroup) (k : CounterKey) :
    matchingCount name requestPath (g :: records) k
      = (if labelsOf name requestPath g = k then g.Count else 0)
        + matchingCount name requestPath records k := by
  unfold matchingCount
  rw [labelsOf_eq]
  by_cases h : (⟨name, Nat.repr g.EdgeResponseStatus, g.ClientRequestHTTPHost, requestPath⟩ :
      CounterKey) = k
  · simp [List.filter_cons, h]
  · simp [List.filter_cons, h]

theorem counterAdd_apply_ne (cv : CounterVec) (labels k : CounterKey) (v : Nat)
    (h : k ≠ labels) : counterAdd cv labels v k = cv k := by
  unfold counterAdd
  rw [if_neg h]

theorem counterAdd_value_self (cv : CounterVec) (labels : CounterKey) (v : Nat) :
    counterValue (counterAdd cv labels v) labels
      = roundFloat64 (counterValue cv labels + v) := by
  simp [counterAdd, counterValue]

theorem foldRecords_value (name requestPath : String) (records : List AdaptiveGroup)
    (cv : CounterVec) (k : CounterKey)
    (hbound : counterValue cv k + matchingCount name requestPath records k < 2 ^ 53) :
    counterValue
        (records.foldl
          (fun cv g => counterAdd cv (labelsOf name requestPath g) (float64OfUint64 g.Count)) cv)
        k
      = counterValue cv k + matchingCount name requestPath records k := by
  induction records generalizing cv with
  | nil => simp [matchingCount]
  | cons g rest ih =>
    rw [matchingCount_cons] at hbound ⊢
    rw [List.foldl_cons]
    by_cases hk : labelsOf name requestPath g = k
    · rw [if_pos hk] at hbound ⊢
      have hg : float64OfUint64 g.Count = g.Count :=
        roundFloat64_of_lt _ (by omega)
      have hstep : counterValue
          (counterAdd cv (labelsOf name requestPath g) (float64OfUint64 g.Count)) k
          = counterValue cv k + g.Count := by
        rw [hg, hk, counterAdd_value_self]
        exact roundFloat64_of_lt _ (by omega)
      rw [ih _ (by rw [hstep]; omega), hstep]
      omega
    · rw [if_neg hk] at hbound ⊢
      have hstep : counterValue
          (counterAdd cv (labelsOf name requestPath g) (float64OfUint64 g.Count)) k
          = counterValue cv k := by
        unfold counterValue
        rw [counterAdd_apply_ne _ _ _ _ (fun h => hk h.symm)]
      rw [ih _ (by rw [hstep]; omega), hstep]
      omega

theorem foldRecords_frame (name requestPath : String) (records : List AdaptiveGroup)
    (cv : CounterVec) (k : CounterKey)
    (hk : ∀ g ∈ records, labelsOf name requestPath g ≠ k) :
    (records.foldl
        (fun cv g => counterAdd cv (labelsOf name requestPath g) (float64OfUint64 g.Count)) cv)
      k = cv k := by
  induction records generalizing cv with
  | nil => rfl
  | cons g rest ih =>
    rw [List.foldl_cons, ih _ (fun g' hg' => hk g' (List.mem_cons_of_mem _ hg'))]
    exact counterAdd_apply_ne _ _ _ _ (fun h => hk g (List.mem_cons_self _ _) h.symm)

/-- C3, the claim as stated fails: the count is converted with
`float64(g.Count)` before it is added, and a count that is not a `float64`
is rounded. One record with count `2 ^ 53 + 1` folded into a fresh counter
leaves `2 ^ 53` under its key, not the sum of the counts. -/
theorem addHTTPAdaptiveGroups_count_rounded :
    counterValue
        (addHTTPAdaptiveGroups freshCounterVec
          ⟨[], [⟨9007199254740993, 200, "example.com"⟩], "zone1"⟩ "example.com" "/api/%")
        ⟨"example.com", "200", "example.com", "/api/%"⟩
      = 9007199254740992
    ∧ counterValue
        (addHTTPAdaptiveGroups freshCounterVec
          ⟨[], [⟨9007199254740993, 200, "example.com"⟩], "zone1"⟩ "example.com" "/api/%")
        ⟨"example.com", "200", "example.com", "/api/%"⟩
      ≠ counterValue freshCounterVec ⟨"example.com", "200", "example.com", "/api/%"⟩
        + matchingCount "example.com" "/api/%" [⟨9007199254740993, 200, "example.com"⟩]
            ⟨"example.com", "200", "example.com", "/api/%"⟩ := by
  decide

/-- C3, amended: folding the records of a zone with `addHTTPAdaptiveGroups`
(zone name `name`, request path `requestPath`) leaves every counter key `k`
whose prior value plus the sum of the counts of the records with key
`(name, decimal string of edgeResponseStatus, clientRequestHTTPHost,
requestPath) = k` is below `2 ^ 53` (where `float64` arithmetic on whole
numbers is exact) with exactly that sum, hence with a value that is not less
than the prior one; a key that no record maps to keeps its entry unchanged,
with no bound needed; and two records with the same key and counts 3 and 5
folded into a fresh counter give 8. -/
theorem addHTTPAdaptiveGroups_spec (cv : CounterVec) (z : zoneResp)
    (name requestPath : String) (k : CounterKey) :
    (counterValue cv k + matchingCount name requestPath z.HTTPRequestsEdgeCountryHost k < 2 ^ 53 →
      counterValue (addHTTPAdaptiveGroups cv z name requestPath) k
          = counterValue cv k + matchingCount name requestPath z.HTTPRequestsEdgeCountryHost k
        ∧ counterValue cv k ≤ counterValue (addHTTPAdaptiveGroups cv z name requestPath) k)
    ∧ ((∀ g ∈ z.HTTPRequestsEdgeCountryHost,
          (⟨name, Nat.repr g.EdgeResponseStatus, g.ClientRequestHTTPHost, requestPath⟩ :
            CounterKey) ≠ k) →
        addHTTPAdaptiveGroups cv z name requestPath k = cv k)
    ∧ counterValue
        (addHTTPAdaptiveGroups freshCounterVec
          ⟨[], [⟨3, 200, "example.com"⟩, ⟨5, 200, "example.com"⟩], "zone1"⟩
          "example.com" "/api/%")
        ⟨"example.com", "200", "example.com", "/api/%"⟩ = 8 := by
  refine ⟨fun hbound => ?_, fun hk => ?_, by decide⟩
  · have h := foldRecords_value name requestPath z.HTTPRequestsEdgeCountryHost cv k hbound
    unfold addHTTPAdaptiveGroups
    rw [h]
    exact ⟨rfl, Nat.le_add_right _ _⟩
  · exact foldRecords_frame name requestPath z.HTTPRequestsEdgeCountryHost cv k hk

/-- Witness for C3: a prior value 2 and records with counts 3, 5 (same key)
and 7 (another status) give 10 under the key of the first two. -/
theorem addHTTPAdaptiveGroups_spec_witness :
    counterValue
        (addHTTPAdaptiveGroups
          (counterAdd freshCounterVec ⟨"example.com", "200", "example.com", "/api/%"⟩ 2)
          ⟨[], [⟨3, 200, "example.com"⟩, ⟨7, 404, "example.com"⟩, ⟨5, 200, "example.com"⟩],
            "zone1"⟩
          "example.com" "/api/%")
        ⟨"example.com", "200", "example.com", "/api/%"⟩
      = 10 :=
  ((addHTTPAdaptiveGroups_spec
      (counterAdd freshCounterVec ⟨"example.com", "200", "example.com", "/api/%"⟩ 2)
      ⟨[], [⟨3, 200, "example.com"⟩, ⟨7, 404, "example.com"⟩, ⟨5, 200, "example.com"⟩],
        "zone1"⟩
      "example.com" "/api/%" ⟨"example.com", "200", "example.com", "/api/%"⟩).1
    (by decide)).1.trans (by decide)

/-! ### The denylist and the fold -/

/-- C4, the claim as stated fails: the fold does not consult the denylist.
With the request counter metric denylisted (so that `mustRegisterMetrics`
registers nothing), a cycle whose query returns one record with count 3
leaves 3 under the record's key in the counter vector, which is not its
prior, fresh state. -/
theorem denylisted_metric_still_counted :
    buildDeniedMetricsSet ["cloudflare_zone_requests_status_country_host"]
        = .ok ⟨["cloudflare_zone_requests_status_country_host"]⟩
    ∧ mustRegisterMetrics ⟨["cloudflare_zone_requests_status_country_host"]⟩ [] = some []
    ∧ counterValue
        (fetchZoneAnalytics ⟨"test-token", "", "", 300, false⟩
          ⟨fun _ => (unixToInternal + 1730000000) * Second,
           fun _ _ => .ok ⟨[⟨[], [⟨3, 200, "example.com"⟩], "zone1"⟩]⟩⟩
          freshCounterVec [⟨"zone1", "example.com", "paid"⟩] ["example.com"] ["/api/%"]).1
        ⟨"example.com", "200", "example.com", "/api/%"⟩ = 3
    ∧ (fetchZoneAnalytics ⟨"test-token", "", "", 300, false⟩
          ⟨fun _ => (unixToInternal + 1730000000) * Second,
           fun _ _ => .ok ⟨[⟨[], [⟨3, 200, "example.com"⟩], "zone1"⟩]⟩⟩
          freshCounterVec [⟨"zone1", "example.com", "paid"⟩] ["example.com"] ["/api/%"]).1
        ≠ freshCounterVec := by
  refine ⟨rfl, rfl, by decide, fun h => ?_⟩
  have h3 := congrFun h ⟨"example.com", "200", "example.com", "/api/%"⟩
  revert h3
  decide

/-- C4, amended: the denylist gates the registration only. For every list
of names that `buildDeniedMetricsSet` accepts, `mustRegisterMetrics` leaves
the registry unchanged when the list names the request counter metric
(`cloudflare_zone_requests_status_country_host`); otherwise it registers the
metric, which panics when the metric is registered already. The fold does
not consult the denylist: whatever the list, also when it names the metric,
`addHTTPAdaptiveGroups` leaves every key whose prior value plus the sum of
the counts of the records with that key is below `2 ^ 53` with exactly that
sum, and a cycle leaves the counter state with the responses of the
successful paths folded in. -/
theorem mustRegisterMetrics_spec (metricsDenylist : List String) (deniedMetrics : MetricsSet)
    (registry : List String)
    (hok : buildDeniedMetricsSet metricsDenylist = .ok deniedMetrics) :
    (mustRegisterMetrics deniedMetrics registry
      = if "cloudflare_zone_requests_status_country_host" ∈ metricsDenylist then some registry
        else if "cloudflare_zone_requests_status_country_host" ∈ registry then none
        else some (registry ++ ["cloudflare_zone_requests_status_country_host"]))
    ∧ (∀ (cv : CounterVec) (z : zoneResp) (name requestPath : String) (k : CounterKey),
        counterValue cv k + matchingCount name requestPath z.HTTPRequestsEdgeCountryHost k
            < 2 ^ 53 →
          counterValue (addHTTPAdaptiveGroups cv z name requestPath) k
            = counterValue cv k
              + matchingCount name requestPath z.HTTPRequestsEdgeCountryHost k)
    ∧ (∀ (cfg : Config) (w : World) (cv : CounterVec) (zones : List Zone)
        (domainNames requestPaths : List String),
        cfg.cfgFreeTier = false → (∃ z ∈ zones, z.PlanID ≠ freePlanID) →
          (fetchZoneAnalytics cfg w cv zones domainNames requestPaths).1
            = foldResponses zones
                (successfulResponses
                  (pathOutcomesFrom cfg w (extractZoneIDs (filterNonFreePlanZones zones))
                    domainNames 0 requestPaths)) cv) := by
  refine ⟨?_, ?_, ?_⟩
  · unfold buildDeniedMetricsSet at hok
    rw [buildDeniedMetricsSetLoop_eq] at hok
    cases hf : metricsDenylist.find? (fun n => !buildAllMetricsSet.Has n) with
    | some bad => rw [hf] at hok; cases hok
    | none =>
      rw [hf] at hok
      injection hok with hok
      have hhas : deniedMetrics.Has zoneRequestStatusCountryHostMetricName = true
          ↔ zoneRequestStatusCountryHostMetricName ∈ metricsDenylist := by
        rw [← hok, metricsSet_has_foldl_add]
        simp [MetricsSet.Has]
      unfold mustRegisterMetrics
      by_cases hm : zoneRequestStatusCountryHostMetricName ∈ metricsDenylist
      · have hm2 : "cloudflare_zone_requests_status_country_host" ∈ metricsDenylist := hm
        rw [if_pos hm2, hhas.2 hm]
        rfl
      · have hm2 : ¬ "cloudflare_zone_requests_status_country_host" ∈ metricsDenylist := hm
        have hfalse : deniedMetrics.Has zoneRequestStatusCountryHostMetricName = false := by
          cases hb : deniedMetrics.Has zoneRequestStatusCountryHostMetricName with
          | false => rfl
          | true => exact absurd (hhas.1 hb) hm
        rw [if_neg hm2, hfalse]
        simp only [Bool.not_false, if_true, prometheusMustRegister]
        by_cases hr : zoneRequestStatusCountryHostMetricName ∈ registry
        · have hr2 : "cloudflare_zone_requests_status_country_host" ∈ registry := hr
          have hc : registry.contains zoneRequestStatusCountryHostMetricName = true := by
            simpa using hr
          rw [if_pos hr2, if_pos hc]
        · have hr2 : ¬ "cloudflare_zone_requests_status_country_host" ∈ registry := hr
          have hc : ¬ registry.contains zoneRequestStatusCountryHostMetricName = true := by
            simpa using hr
          rw [if_neg hr2, if_neg hc]
          rfl
  · intro cv z name requestPath k hbound
    exact foldRecords_value name requestPath z.HTTPRequestsEdgeCountryHost cv k hbound
  · intro cfg w cv zones domainNames requestPaths hft hz
    rw [fetchZoneAnalytics_eq]
    have hc : ¬ (cfg.cfgFreeTier = true ∨ (∀ z ∈ zones, z.PlanID = freePlanID)) := by
      rintro (h | h)
      · rw [hft] at h; cases h
      · obtain ⟨z, hzm, hzp⟩ := hz
        exact hzp (h z hzm)
    rw [if_neg hc]

/-- Witness for C4: the denylist that names the request counter metric. -/
theorem mustRegisterMetrics_spec_witness :
    mustRegisterMetrics ⟨["cloudflare_zone_requests_status_country_host"]⟩ ["go_info"]
      = some ["go_info"] :=
  (mustRegisterMetrics_spec ["cloudflare_zone_requests_status_country_host"]
    ⟨["cloudflare_zone_requests_status_country_host"]⟩ ["go_info"] rfl).1.trans (by decide)

/-! ### Normalisation of comma-separated values -/

theorem splitChars_no_sep (sep : Char) (l : List Char) (h : sep ∉ l) :
    splitChars sep l = [l] := by
  induction l with
  | nil => rfl
  | cons c cs ih =>
    have hc : c ≠ sep := fun e => h (by simp [e])
    have hcs : sep ∉ cs := fun e => h (List.mem_cons_of_mem _ e)
    simp [splitChars, hc, ih hcs]

theorem splitChars_append_sep (sep : Char) (l rest : List Char) (h : sep ∉ l) :
    splitChars sep (l ++ sep :: rest) = l :: splitChars sep rest := by
  induction l with
  | nil => simp [splitChars]
  | cons c cs ih =>
    have hc : c ≠ sep := fun e => h (by simp [e])
    have hcs : sep ∉ cs := fun e => h (List.mem_cons_of_mem _ e)
    simp [splitChars, hc, ih hcs]

theorem splitChars_joinChars (sep : Char) (pieces : List (List Char)) (hne : pieces ≠ [])
    (h : ∀ p ∈ pieces, sep ∉ p) :
    splitChars sep (joinChars sep pieces) = pieces := by
  induction pieces with
  | nil => exact absurd rfl hne
  | cons a rest ih =>
    cases rest with
    | nil => exact splitChars_no_sep sep a (h a (List.mem_cons_self _ _))
    | cons b rest =>
      rw [joinChars, splitChars_append_sep sep a _ (h a (List.mem_cons_self _ _)),
        ih (List.cons_ne_nil _ _) (fun p hp => h p (List.mem_cons_of_mem _ hp))]

theorem dropWhile_isSpace_of_headNotSpace (x : List Char) (hx : headNotSpace x = true) :
    x.dropWhile isSpace = x := by
  cases x with
  | nil => rfl
  | cons c cs =>
    have hc : isSpace c = false := by simpa [headNotSpace] using hx
    simp [List.dropWhile, hc]

theorem dropWhile_isSpace_append (l x : List Char) (hl : l.all isSpace = true) :
    (l ++ x).dropWhile isSpace = x.dropWhile isSpace := by
  induction l with
  | nil => rfl
  | cons c cs ih =>
    simp only [List.all_cons, Bool.and_eq_true] at hl
    simp [List.dropWhile, hl.1, ih hl.2]

theorem trimSpaceChars_padded (l x r : List Char) (hx : x ≠ []) (hl : l.all isSpace = true)
    (hr : r.all isSpace = true) (hhead : headNotSpace x = true)
    (hlast : lastNotSpace x = true) :
    trimSpaceChars (l ++ x ++ r) = x := by
  unfold trimSpaceChars
  rw [List.append_assoc, dropWhile_isSpace_append l _ hl]
  have hxr : (x ++ r).dropWhile isSpace = x ++ r := by
    cases x with
    | nil => exact absurd rfl hx
    | cons c cs =>
      have hc : isSpace c = false := by simpa [headNotSpace] using hhead
      simp [List.dropWhile, hc]
  rw [hxr]
  unfold List.rdropWhile
  rw [List.reverse_append, dropWhile_isSpace_append _ _ (by simpa using hr)]
  rw [dropWhile_isSpace_of_headNotSpace _ (by simpa [headNotSpace, lastNotSpace] using hlast)]
  exact List.reverse_reverse x

theorem trimSpace_text (e : PaddedItem) (h : e.wellFormed = true) :
    trimSpaceChars e.text.data = e.item.data := by
  simp only [PaddedItem.wellFormed, isPadding, isItem, Bool.and_eq_true, Bool.not_eq_true,
    Bool.not_eq_eq_eq_not, Bool.not_true] at h
  obtain ⟨⟨hl, ⟨⟨hne, _⟩, hhead⟩, hlast⟩, hr⟩ := h
  have hx : e.item.data ≠ [] := by
    intro h0
    rw [h0] at hne
    simp at hne
  simp only [PaddedItem.text, String.data_append]
  exact trimSpaceChars_padded _ _ _ hx hl hr hhead hlast

theorem text_no_comma (e : PaddedItem) (h : e.wellFormed = true) : ',' ∉ e.text.data := by
  simp only [PaddedItem.wellFormed, isPadding, isItem, Bool.and_eq_true, Bool.not_eq_true,
    Bool.not_eq_eq_eq_not, Bool.not_true, List.all_eq_true] at h
  obtain ⟨⟨hl, ⟨⟨_, hc⟩, _⟩, _⟩, hr⟩ := h
  simp only [PaddedItem.text, String.data_append, List.mem_append, not_or]
  refine ⟨⟨fun hm => ?_, ?_⟩, fun hm => ?_⟩
  · exact absurd (hl _ hm) (by decide)
  · simpa using hc
  · exact absurd (hr _ hm) (by decide)

theorem text_ne_nil (e : PaddedItem) (h : e.wellFormed = true) : e.text.data ≠ [] := by
  simp only [PaddedItem.wellFormed, isItem, Bool.and_eq_true, Bool.not_eq_true,
    Bool.not_eq_eq_eq_not, Bool.not_true] at h
  obtain ⟨⟨_, ⟨⟨hne, _⟩, _⟩, _⟩, _⟩ := h
  simp only [PaddedItem.text, String.data_append]
  intro h0
  have : e.item.data = [] := by
    have := congrArg List.length h0
    simp only [List.length_append, List.length_nil] at this
    exact List.length_eq_zero.1 (by omega)
  rw [this] at hne
  simp at hne

theorem joinChars_ne_nil (sep : Char) (pieces : List (List Char)) (hne : pieces ≠ [])
    (h : ∀ p ∈ pieces, p ≠ []) : joinChars sep pieces ≠ [] := by
  cases pieces with
  | nil => exact absurd rfl hne
  | cons a rest =>
    cases rest with
    | nil => exact h a (List.mem_cons_self _ _)
    | cons b rest =>
      rw [joinChars]
      intro h0
      have := congrArg List.length h0
      simp at this

/-- C10: splitting a configuration value on `,` and trimming each piece
recovers the items. For every non-empty list of items (non-empty strings
with no comma and no leading or trailing white space), each written with any
white space before and after it, the normalisation of their join with `,` is
exactly the list of the items, in order; and the empty configuration value
gives no items. -/
theorem normalizeList_join (items : List PaddedItem) (hne : items ≠ [])
    (hwf : ∀ e ∈ items, e.wellFormed = true) :
    normalizeList (stringsJoin (items.map PaddedItem.text) ',') = items.map PaddedItem.item
    ∧ normalizeList "" = [] := by
  refine ⟨?_, rfl⟩
  have hpieces : (items.map PaddedItem.text).map String.data ≠ [] := by
    simpa using hne
  have hlen : (stringsJoin (items.map PaddedItem.text) ',').length > 0 := by
    have hnn := joinChars_ne_nil ',' _ hpieces (by
      intro p hp
      simp only [List.map_map, List.mem_map, Function.comp] at hp
      obtain ⟨e, he, rfl⟩ := hp
      exact text_ne_nil e (hwf e he))
    show (joinChars ',' _).length > 0
    exact List.length_pos.2 hnn
  unfold normalizeList
  rw [if_pos hlen]
  unfold stringsSplit stringsJoin
  rw [splitChars_joinChars ',' _ hpieces (by
    intro p hp
    simp only [List.map_map, List.mem_map, Function.comp] at hp
    obtain ⟨e, he, rfl⟩ := hp
    exact text_no_comma e (hwf e he))]
  simp only [List.map_map]
  apply List.map_congr_left
  intro e he
  simp only [Function.comp, stringsTrimSpace]
  rw [trimSpace_text e (hwf e he)]

/-- Witness for C10: the value `"/api/%,  /v1/.* , /health"`. -/
theorem normalizeList_join_witness :
    normalizeList "/api/%,  /v1/.* , /health" = ["/api/%", "/v1/.*", "/health"] :=
  (normalizeList_join [⟨"", "/api/%", ""⟩, ⟨"  ", "/v1/.*", " "⟩, ⟨" ", "/health", ""⟩]
    (by decide) (by decide)).1

end CloudflareExporter
